import Mathlib

/-!
Verification development for the `keras_hub` repository components:
`BoxMatcher` (similarity-matrix argmax matching), `MultiSegmentPacker`
(token-sequence packing with truncation and padding), and the
`PaliGemmaBackbone` functional-graph assembly.

Tensors are embedded as (nested) lists; float values as rationals.
-/

/-- Extended rationals: the model of float values together with the
`-inf` / `+inf` sentinels that `BoxMatcher.__init__` prepends/appends to the
`thresholds` list. -/
inductive XRat where
  | negInf : XRat
  | fin : ℚ → XRat
  | posInf : XRat
deriving DecidableEq

/-- `a <= b` on extended rationals, as a boolean (models float comparison). -/
def XRat.leb : XRat → XRat → Bool
  | .negInf, _ => true
  | _, .posInf => true
  | .fin a, .fin b => decide (a ≤ b)
  | _, _ => false

/-- `a < b` on extended rationals (models `ops.less`). -/
def XRat.ltb (a b : XRat) : Bool := !(XRat.leb b a)

/-- Maximum of a list of rationals (models `ops.max` along the last axis;
the empty case never arises in the code paths modelled here). -/
def listMax : List ℚ → ℚ
  | [] => 0
  | [x] => x
  | x :: y :: t => max x (listMax (y :: t))

/-- Index of the first occurrence of the maximum (models `ops.argmax`, which
breaks ties towards the lowest index). -/
def argmaxIdx : List ℚ → Nat
  | [] => 0
  | [_] => 0
  | x :: y :: t => if listMax (y :: t) ≤ x then 0 else argmaxIdx (y :: t) + 1

/-- Model of Python's `sorted(xs) == xs` check: the list is non-decreasing. -/
def isSortedQ : List ℚ → Bool
  | [] => true
  | [_] => true
  | a :: b :: t => decide (a ≤ b) && isSortedQ (b :: t)

/-- Boolean sortedness for lists of extended rationals. -/
def sortedX : List XRat → Bool
  | [] => true
  | [_] => true
  | a :: b :: t => XRat.leb a b && sortedX (b :: t)

/-- State of a constructed `BoxMatcher` layer: `thresholds` is the stored
list (constructor argument with `-inf` prepended and `+inf` appended). -/
structure BoxMatcher where
  thresholds : List XRat
  match_values : List Int
  force_match_for_each_col : Bool
deriving DecidableEq

/-- `BoxMatcher.__init__`: validates that `thresholds` is sorted and that
`len(match_values) == len(thresholds) + 1` (in that order, matching the two
`raise ValueError` sites), then stores the thresholds extended with the two
infinities. -/
def BoxMatcher.init (thresholds : List ℚ) (match_values : List Int)
    (force_match_for_each_col : Bool) : Except String BoxMatcher :=
  if ¬ isSortedQ thresholds = true then
    Except.error "`threshold` must be sorted"
  else if match_values.length ≠ thresholds.length + 1 then
    Except.error "len(`match_values`) must be len(`thresholds`) + 1"
  else
    Except.ok
      ⟨XRat.negInf :: (thresholds.map XRat.fin ++ [XRat.posInf]),
        match_values, force_match_for_each_col⟩

/-- Parallel three-way zip, modelling
`zip(self.match_values, self.thresholds[:-1], self.thresholds[1:])`. -/
def zip3 : List Int → List XRat → List XRat → List (Int × XRat × XRat)
  | a :: as, b :: bs, c :: cs => (a, b, c) :: zip3 as bs cs
  | _, _, _ => []

/-- The threshold loop of `_match_when_cols_are_non_empty`: starting from the
accumulator, each `(ind, low, high)` triple overwrites the accumulator with
`ind` where `low <= v < high` (`_set_values_using_indicator`). -/
def applyThresholds (v : ℚ) : List (Int × XRat × XRat) → Int → Int
  | [], acc => acc
  | t :: rest, acc =>
      applyThresholds v rest
        (if XRat.leb t.2.1 (XRat.fin v) && XRat.ltb (XRat.fin v) t.2.2 then t.1 else acc)

/-- The matched value computed for a row whose maximum similarity is `v`:
the zero initialisation (`ops.zeros`) followed by the threshold loop. -/
def setValuesFold (match_values : List Int) (thresholds : List XRat) (v : ℚ) : Int :=
  applyThresholds v (zip3 match_values thresholds.dropLast thresholds.tail) 0

/-- The `-1` padding column appended to each row of the similarity matrix
(`ops.concatenate([similarity_matrix, -ops.ones(...)], axis=-1)`). -/
def paddedRow (r : List ℚ) : List ℚ := r ++ [-1]

/-- `_match_when_cols_are_non_empty` on one batch element: argmax matching
over the padded matrix, threshold classification, and the optional
force-match-for-each-column override. -/
def BoxMatcher.matchNonEmpty (m : BoxMatcher) (sim : List (List ℚ)) :
    List Nat × List Int :=
  let numRows := sim.length
  let padded := sim.map paddedRow
  let matchedColumns := padded.map argmaxIdx
  let matchedVals := padded.map listMax
  let matchedValues := matchedVals.map (setValuesFold m.match_values m.thresholds)
  if m.force_match_for_each_col then
    let numColsP := (padded.headD []).length
    let matchingRows :=
      (List.range numColsP).map fun j => argmaxIdx (padded.map fun r => r.getD j (-1))
    let oneHotCol := fun i => matchingRows.map fun r => if r = i then (1 : ℚ) else 0
    let forceMatchedColumns := (List.range numRows).map fun i => argmaxIdx (oneHotCol i)
    let forceMask := (List.range numRows).map fun i => decide (listMax (oneHotCol i) ≠ 0)
    let mc := (List.range numRows).map fun i =>
      if forceMask.getD i false then forceMatchedColumns.getD i 0 else matchedColumns.getD i 0
    let mv := (List.range numRows).map fun i =>
      if forceMask.getD i false then m.match_values.getLastD 0 else matchedValues.getD i 0
    (mc, mv)
  else (matchedColumns, matchedValues)

/-- `_match_when_cols_are_empty`: all-zero matched columns and all `-1`
matched values, of shape `[num_rows]` per batch element. -/
def BoxMatcher.matchEmpty (sim : List (List ℚ)) : List Nat × List Int :=
  (List.replicate sim.length 0, List.replicate sim.length (-1))

/-- `BoxMatcher.call` on one batch element: the `ops.cond` dispatch on
`num_boxes > 0` (the static last-axis size of the similarity matrix). -/
def BoxMatcher.call2d (m : BoxMatcher) (sim : List (List ℚ)) : List Nat × List Int :=
  let numCols := (sim.headD []).length
  if 0 < numCols then m.matchNonEmpty sim else BoxMatcher.matchEmpty sim

/-- `BoxMatcher.call` on a batched `[batch_size, num_rows, num_cols]` input:
all the tensor operations involved act independently on each batch slice. -/
def BoxMatcher.call (m : BoxMatcher) (sims : List (List (List ℚ))) :
    List (List Nat × List Int) :=
  sims.map m.call2d

/-- `BoxMatcher.call` on a 2-D `[num_rows, num_cols]` input: the code expands
a leading batch axis (`ops.expand_dims`), runs the batched computation, and
squeezes the result (`ops.squeeze`). -/
def BoxMatcher.callMatrix (m : BoxMatcher) (sim : List (List ℚ)) :
    List Nat × List Int :=
  (m.call [sim]).getD 0 ([], [])

/-- Concrete matcher used to evaluate the force-match branch:
`BoxMatcher(thresholds=[1], match_values=[0, 1], force_match_for_each_col=True)`. -/
def forceMatcher : BoxMatcher :=
  ⟨[XRat.negInf, XRat.fin 1, XRat.posInf], [0, 1], true⟩

/-- Modelled from the spec: truncation strategy of the token-sequence packer
(`MultiSegmentPacker`, whose implementation file is not under `src`, only its
tests). -/
inductive TruncateMode where
  | roundRobin
  | waterfall
deriving DecidableEq

/-- Modelled from the spec: which side receives padding. -/
inductive PaddingSide where
  | left
  | right
deriving DecidableEq

/-- Modelled from the spec: configuration of the token-sequence packer
(`MultiSegmentPacker`). The implementation file is not under `src` (only
`multi_segment_packer_test.py` is); the model follows the spec's
"padding/truncation bookkeeping" description and reproduces the behaviour
pinned down by those tests. -/
structure MultiSegmentPacker (α : Type) where
  sequence_length : Nat
  start_value : List α
  end_value : List α
  sep_value : List α
  pad_value : α
  truncate : TruncateMode
  padding_side : PaddingSide

/-- Modelled from the spec: the number of special tokens added when packing
`n` segments — one start block, a separator block between consecutive
segments, and one end block. -/
def numSpecialTokens {α : Type} (p : MultiSegmentPacker α) (n : Nat) : Nat :=
  p.start_value.length + (n - 1) * p.sep_value.length + p.end_value.length

/-- One step of waterfall truncation: the current segment keeps as much of
the remaining budget as it can; the remainder flows to the next segment. -/
def waterfallStep (acc : List Nat × Nat) (l : Nat) : List Nat × Nat :=
  (acc.1 ++ [min l acc.2], acc.2 - min l acc.2)

/-- Modelled from the spec: waterfall truncation spends the token budget on
the segments in order. Returns the kept length of each segment. -/
def waterfallCounts (ls : List Nat) (budget : Nat) : List Nat :=
  (ls.foldl waterfallStep ([], budget)).1

/-- One round-robin pass: each segment with spare capacity takes one more
token while budget remains, in segment order. `ls` are the segment lengths,
`ks` the tokens kept so far. -/
def rrPass : List Nat → List Nat → Nat → List Nat × Nat
  | _, [], b => ([], b)
  | [], _ :: _, b => ([], b)
  | l :: ls, k :: ks, b =>
    if k < l ∧ 0 < b then
      ((k + 1) :: (rrPass ls ks (b - 1)).1, (rrPass ls ks (b - 1)).2)
    else
      (k :: (rrPass ls ks b).1, (rrPass ls ks b).2)

/-- Some segment can still take one more token. -/
def hasCapacity (ls ks : List Nat) : Bool :=
  (List.zip ls ks).any fun p => decide (p.2 < p.1)

/-- Fueled iteration of round-robin passes; every executed pass consumes at
least one unit of budget, so `fuel = budget` suffices. -/
def rrAux : Nat → List Nat → List Nat → Nat → List Nat
  | 0, _, ks, _ => ks
  | fuel + 1, ls, ks, b =>
    if 0 < b ∧ hasCapacity ls ks = true then
      rrAux fuel ls (rrPass ls ks b).1 (rrPass ls ks b).2
    else ks

/-- Modelled from the spec: round-robin truncation distributes the kept
tokens across the segments one token at a time. Returns the kept length of
each segment. -/
def roundRobinCounts (ls : List Nat) (budget : Nat) : List Nat :=
  rrAux budget ls (ls.map fun _ => 0) budget

/-- Two-segment specialisation of one round-robin pass, as explicit grants. -/
def rr2Pass (l1 l2 k1 k2 b : Nat) : Nat × Nat × Nat :=
  let g1 := if k1 < l1 ∧ 0 < b then 1 else 0
  let g2 := if k2 < l2 ∧ 0 < b - g1 then 1 else 0
  (k1 + g1, k2 + g2, b - g1 - g2)

/-- Two-segment specialisation of the fueled round-robin iteration. -/
def rr2 : Nat → Nat → Nat → Nat → Nat → Nat → Nat × Nat
  | 0, _, _, k1, k2, _ => (k1, k2)
  | fuel + 1, l1, l2, k1, k2, b =>
    if 0 < b ∧ (k1 < l1 ∨ k2 < l2) then
      rr2 fuel l1 l2 (rr2Pass l1 l2 k1 k2 b).1 (rr2Pass l1 l2 k1 k2 b).2.1
        (rr2Pass l1 l2 k1 k2 b).2.2
    else (k1, k2)

/-- Closed form for the tokens the first of two segments keeps under
round-robin truncation. -/
def rrClosed1 (l1 l2 b : Nat) : Nat := min l1 (max ((b + 1) / 2) (b - l2))

/-- Closed form for the tokens the second of two segments keeps under
round-robin truncation. -/
def rrClosed2 (l1 l2 b : Nat) : Nat := min l2 (max (b / 2) (b - l1))

/-- Modelled from the spec: kept length of every segment after truncation. -/
def segmentCounts {α : Type} (p : MultiSegmentPacker α) (ls : List Nat) : List Nat :=
  match p.truncate with
  | .roundRobin => roundRobinCounts ls (p.sequence_length - numSpecialTokens p ls.length)
  | .waterfall => waterfallCounts ls (p.sequence_length - numSpecialTokens p ls.length)

/-- Modelled from the spec: truncate each segment to its kept length. -/
def trimSegments {α : Type} (p : MultiSegmentPacker α) (segs : List (List α)) :
    List (List α) :=
  List.zipWith List.take (segmentCounts p (segs.map List.length)) segs

/-- Modelled from the spec: tokens after the start block — each segment
followed by the separator block, the last one by the end block. -/
def combineRest {α : Type} (p : MultiSegmentPacker α) : List (List α) → List α
  | [] => []
  | [s] => s ++ p.end_value
  | s :: s2 :: rest => s ++ p.sep_value ++ combineRest p (s2 :: rest)

/-- Modelled from the spec: the packed token sequence before padding. -/
def combineTokens {α : Type} (p : MultiSegmentPacker α) (segs : List (List α)) : List α :=
  p.start_value ++ combineRest p segs

/-- Modelled from the spec: segment ids after the start block — segment `i`
labels its own tokens and its trailing separator/end block. -/
def segIdsRest {α : Type} (p : MultiSegmentPacker α) : Nat → List (List α) → List Nat
  | _, [] => []
  | i, [s] => List.replicate (s.length + p.end_value.length) i
  | i, s :: s2 :: rest =>
    List.replicate (s.length + p.sep_value.length) i ++ segIdsRest p (i + 1) (s2 :: rest)

/-- Modelled from the spec: the segment-id sequence before padding; the
start block belongs to segment 0. -/
def combineSegIds {α : Type} (p : MultiSegmentPacker α) (segs : List (List α)) : List Nat :=
  List.replicate p.start_value.length 0 ++ segIdsRest p 0 segs

/-- Modelled from the spec: force length `len` — truncate longer sequences,
pad shorter ones on the given side. -/
def padTo {α : Type} (len : Nat) (side : PaddingSide) (pad : α) (xs : List α) : List α :=
  if len ≤ xs.length then xs.take len
  else
    match side with
    | .right => xs ++ List.replicate (len - xs.length) pad
    | .left => List.replicate (len - xs.length) pad ++ xs

/-- Modelled from the spec: `MultiSegmentPacker.call` — trim the segments to
the token budget, add the special tokens and segment ids, and pad/truncate
both outputs to exactly `sequence_length`. -/
def MultiSegmentPacker.call {α : Type} (p : MultiSegmentPacker α)
    (segs : List (List α)) : List α × List Nat :=
  let trimmed := trimSegments p segs
  (padTo p.sequence_length p.padding_side p.pad_value (combineTokens p trimmed),
    padTo p.sequence_length p.padding_side 0 (combineSegIds p trimmed))

/-- Packer used for concrete waterfall examples: `sequence_length=7`,
`start_value=101`, `end_value=sep_value=102`, right padding with `0`. -/
def wfExample : MultiSegmentPacker Nat :=
  ⟨7, [101], [102], [102], 0, TruncateMode.waterfall, PaddingSide.right⟩

/-- Packer used for concrete round-robin examples (same specials). -/
def rrExample : MultiSegmentPacker Nat :=
  ⟨7, [101], [102], [102], 0, TruncateMode.roundRobin, PaddingSide.right⟩

/-- Abstract interfaces of the layers `PaliGemmaBackbone.__init__` builds:
the ViT encoder, the (already `sqrt(hidden_dim)`-scalable) token embedding,
the decoder blocks (indexed by construction order) and the final RMS
normalization. `V` is the embedding-vector type, `I` the image type. -/
structure PaliGemmaOps (V I : Type) where
  vit_encoder : I → List V
  token_embedding : Int → V
  scalar_mul : ℚ → V → V
  decoder_block : Nat → List V → List Int → List Int → List V
  rms_norm : List V → List V

/-- The `for i in range(num_layers)` loop of `PaliGemmaBackbone.__init__`,
which appends `PaliGemmaDecoderBlock(..., name=f"decoder_block_{i}")` to
`self.transformer_layers` in construction order. -/
def buildTransformerLayers {V I : Type} (ops : PaliGemmaOps V I) (num_layers : Nat) :
    List (List V → List Int → List Int → List V) :=
  (List.range num_layers).foldl (fun acc i => acc ++ [ops.decoder_block i]) []

/-- The functional model built by `PaliGemmaBackbone.__init__`: ViT on the
image input, token embeddings scaled by `sqrt(hidden_dim)` (passed here as
`sqrt_hidden`), image embeddings concatenated before text embeddings, the
decoder blocks folded over the sequence in list order, and the final RMS
normalization. -/
def paliGemmaCall {V I : Type} (ops : PaliGemmaOps V I) (num_layers : Nat)
    (sqrt_hidden : ℚ) (images : I) (token_ids : List Int)
    (padding_mask response_mask : List Int) : List V :=
  let img_embeddings := ops.vit_encoder images
  let text_embeddings :=
    token_ids.map fun t => ops.scalar_mul sqrt_hidden (ops.token_embedding t)
  let x0 := img_embeddings ++ text_embeddings
  let xfinal := (buildTransformerLayers ops num_layers).foldl
    (fun x layer => layer x padding_mask response_mask) x0
  ops.rms_norm xfinal

/-- Concrete instantiation of the PaliGemma layer interfaces over `Int`
vectors, used to evaluate the assembled forward pass. -/
def demoOps : PaliGemmaOps Int Unit :=
  ⟨fun _ => [5], fun t => t, fun q v => q.num * v,
    fun i xs _ _ => xs ++ [Int.ofNat i], fun xs => xs⟩

/-- `isOk` discriminator for `Except` results (models "does not raise"). -/
def exceptIsOk {ε α : Type} : Except ε α → Bool
  | .ok _ => true
  | .error _ => false

/-! ### Basic list lemmas -/

theorem getD_map_of_lt {α β : Type} (f : α → β) (l : List α) (i : Nat) (d : β) (d' : α)
    (h : i < l.length) : (l.map f).getD i d = f (l.getD i d') := by
  induction l generalizing i with
  | nil => simp at h
  | cons x t ih =>
    cases i with
    | zero => simp
    | succ j =>
      simp only [List.map_cons, List.getD_cons_succ]
      exact ih j (by simpa using h)

theorem getD_mem_of_lt {α : Type} (l : List α) (i : Nat) (d : α) (h : i < l.length) :
    l.getD i d ∈ l := by
  induction l generalizing i with
  | nil => simp at h
  | cons x t ih =>
    cases i with
    | zero => simp
    | succ j =>
      simp only [List.getD_cons_succ]
      exact List.mem_cons_of_mem x (ih j (by simpa using h))

/-! ### `listMax` and `argmaxIdx` -/

theorem listMax_cons (x y : ℚ) (t : List ℚ) :
    listMax (x :: y :: t) = max x (listMax (y :: t)) := rfl

theorem argmaxIdx_cons (x y : ℚ) (t : List ℚ) :
    argmaxIdx (x :: y :: t) =
      if listMax (y :: t) ≤ x then 0 else argmaxIdx (y :: t) + 1 := rfl

theorem argmaxIdx_lt_length : ∀ l : List ℚ, l ≠ [] → argmaxIdx l < l.length := by
  intro l
  induction l with
  | nil => simp
  | cons x t ih =>
    intro _
    cases t with
    | nil => simp [argmaxIdx]
    | cons y s =>
      rw [argmaxIdx_cons]
      split
      · simp
      · have h2 := ih (by simp)
        simp only [List.length_cons] at h2 ⊢
        omega

theorem getD_argmaxIdx (d : ℚ) : ∀ l : List ℚ, l ≠ [] →
    l.getD (argmaxIdx l) d = listMax l := by
  intro l
  induction l with
  | nil => simp
  | cons x t ih =>
    intro _
    cases t with
    | nil => simp [argmaxIdx, listMax]
    | cons y s =>
      rw [argmaxIdx_cons, listMax_cons]
      by_cases h : listMax (y :: s) ≤ x
      · rw [if_pos h]
        simp [max_eq_left h]
      · rw [if_neg h]
        simp only [List.getD_cons_succ]
        rw [ih (by simp), max_eq_right (le_of_not_le h)]

theorem listMax_mem : ∀ l : List ℚ, l ≠ [] → listMax l ∈ l := by
  intro l
  induction l with
  | nil => simp
  | cons x t ih =>
    intro _
    cases t with
    | nil => simp [listMax]
    | cons y s =>
      rw [listMax_cons]
      by_cases h : listMax (y :: s) ≤ x
      · rw [max_eq_left h]; simp
      · rw [max_eq_right (le_of_not_le h)]
        exact List.mem_cons_of_mem x (ih (by simp))

theorem listMax_append_neg : ∀ l : List ℚ, l ≠ [] → (∀ x ∈ l, 0 ≤ x) →
    listMax (paddedRow l) = listMax l := by
  intro l
  induction l with
  | nil => simp
  | cons x t ih =>
    intro _ h0
    cases t with
    | nil =>
      have hx : (0 : ℚ) ≤ x := h0 x (by simp)
      simp only [paddedRow, List.cons_append, List.nil_append]
      rw [listMax_cons]
      have : (-1 : ℚ) ≤ x := by linarith
      simp [listMax, max_eq_left this]
    | cons y s =>
      have hrest := ih (by simp) (fun z hz => h0 z (List.mem_cons_of_mem x hz))
      simp only [paddedRow, List.cons_append] at hrest ⊢
      rw [listMax_cons, hrest, listMax_cons]

theorem argmaxIdx_append_neg : ∀ l : List ℚ, l ≠ [] → (∀ x ∈ l, 0 ≤ x) →
    argmaxIdx (paddedRow l) = argmaxIdx l := by
  intro l
  induction l with
  | nil => simp
  | cons x t ih =>
    intro _ h0
    cases t with
    | nil =>
      have hx : (0 : ℚ) ≤ x := h0 x (by simp)
      simp only [paddedRow, List.cons_append, List.nil_append]
      rw [argmaxIdx_cons]
      have : listMax [(-1 : ℚ)] ≤ x := by simp [listMax]; linarith
      simp [this, argmaxIdx]
    | cons y s =>
      have hmax := listMax_append_neg (y :: s) (by simp)
        (fun z hz => h0 z (List.mem_cons_of_mem x hz))
      have hidx := ih (by simp) (fun z hz => h0 z (List.mem_cons_of_mem x hz))
      simp only [paddedRow, List.cons_append] at hmax hidx ⊢
      rw [argmaxIdx_cons, hmax, hidx, argmaxIdx_cons]

/-! ### `XRat` order lemmas -/

theorem XRat.leb_refl : ∀ a : XRat, XRat.leb a a = true := by
  intro a; cases a <;> simp [XRat.leb]

theorem XRat.leb_posInf : ∀ a : XRat, XRat.leb a XRat.posInf = true := by
  intro a; cases a <;> rfl

theorem XRat.leb_negInf : ∀ a : XRat, XRat.leb XRat.negInf a = true := by
  intro a; cases a <;> rfl

theorem XRat.leb_trans : ∀ a b c : XRat, XRat.leb a b = true → XRat.leb b c = true →
    XRat.leb a c = true := by
  intro a b c hab hbc
  cases a <;> cases b <;> cases c <;> simp_all [XRat.leb]
  exact le_trans hab hbc

theorem XRat.ltb_iff_not_leb (a b : XRat) : XRat.ltb a b = true ↔ ¬ XRat.leb b a = true := by
  simp [XRat.ltb]

theorem XRat.not_leb_and_ltb (a b : XRat) :
    ¬ (XRat.leb a b = true ∧ XRat.ltb b a = true) := by
  rintro ⟨h1, h2⟩
  rw [XRat.ltb_iff_not_leb] at h2
  exact h2 h1

/-! ### Sortedness lemmas -/

theorem sortedX_tail : ∀ (a : XRat) (l : List XRat), sortedX (a :: l) = true →
    sortedX l = true := by
  intro a l h
  cases l with
  | nil => rfl
  | cons b t => simp [sortedX] at h; exact h.2

theorem sortedX_head_le : ∀ (l : List XRat) (a : XRat), sortedX (a :: l) = true →
    ∀ x ∈ a :: l, XRat.leb a x = true := by
  intro l
  induction l with
  | nil =>
    intro a _ x hx
    simp at hx
    subst hx
    exact XRat.leb_refl _
  | cons b t ih =>
    intro a h x hx
    have hab : XRat.leb a b = true := by simp [sortedX] at h; exact h.1
    rcases List.mem_cons.mp hx with rfl | hx'
    · exact XRat.leb_refl x
    · exact XRat.leb_trans a b x hab (ih b (sortedX_tail a (b :: t) h) x hx')

theorem sortedX_map_fin : ∀ ts : List ℚ, isSortedQ ts = true →
    sortedX (ts.map XRat.fin) = true := by
  intro ts
  induction ts with
  | nil => intro _; rfl
  | cons a t ih =>
    intro h
    cases t with
    | nil => rfl
    | cons b s =>
      simp only [isSortedQ, Bool.and_eq_true, decide_eq_true_eq] at h
      simp only [List.map_cons, sortedX, Bool.and_eq_true]
      exact ⟨by simp [XRat.leb, h.1], ih h.2⟩

theorem sortedX_append_posInf : ∀ l : List XRat, sortedX l = true →
    sortedX (l ++ [XRat.posInf]) = true := by
  intro l
  induction l with
  | nil => intro _; rfl
  | cons a t ih =>
    intro h
    cases t with
    | nil => simp [sortedX, XRat.leb_posInf]
    | cons b s =>
      simp only [sortedX, Bool.and_eq_true] at h
      simp only [List.cons_append, sortedX, Bool.and_eq_true]
      refine ⟨h.1, ?_⟩
      have := ih h.2
      simpa using this

theorem sortedX_cons_negInf : ∀ l : List XRat, sortedX l = true →
    sortedX (XRat.negInf :: l) = true := by
  intro l h
  cases l with
  | nil => rfl
  | cons a t => simp [sortedX, XRat.leb_negInf, h]

theorem sortedX_stored (ts : List ℚ) (h : isSortedQ ts = true) :
    sortedX (XRat.negInf :: (ts.map XRat.fin ++ [XRat.posInf])) = true :=
  sortedX_cons_negInf _ (sortedX_append_posInf _ (sortedX_map_fin ts h))

/-! ### `getLastD` helpers -/

theorem getLastD_default_irrel {α : Type} : ∀ (l : List α) (d d' : α), l ≠ [] →
    l.getLastD d = l.getLastD d' := by
  intro l d d' h
  rw [List.getLastD_eq_getLast?, List.getLastD_eq_getLast?, List.getLast?_eq_getLast l h]
  rfl

theorem getLastD_cons_of_ne_nil {α : Type} (a d : α) (l : List α) (h : l ≠ []) :
    (a :: l).getLastD d = l.getLastD d := by
  rw [List.getLastD_cons]
  exact getLastD_default_irrel l a d h

/-! ### `zip3` and the threshold fold -/

theorem zip3_mem_middle : ∀ (as : List Int) (bs cs : List XRat) (t : Int × XRat × XRat),
    t ∈ zip3 as bs cs → t.2.1 ∈ bs := by
  intro as
  induction as with
  | nil => intro bs cs t ht; simp [zip3] at ht
  | cons a as ih =>
    intro bs cs t ht
    cases bs with
    | nil => simp [zip3] at ht
    | cons b bs =>
      cases cs with
      | nil => simp [zip3] at ht
      | cons c cs =>
        simp only [zip3, List.mem_cons] at ht
        rcases ht with rfl | ht'
        · simp
        · exact List.mem_cons_of_mem b (ih bs cs t ht')

theorem applyThresholds_no_match (v : ℚ) : ∀ (trips : List (Int × XRat × XRat)) (acc : Int),
    (∀ t ∈ trips, XRat.leb t.2.1 (XRat.fin v) = false) →
    applyThresholds v trips acc = acc := by
  intro trips
  induction trips with
  | nil => intro acc _; rfl
  | cons t rest ih =>
    intro acc h
    have h1 : XRat.leb t.2.1 (XRat.fin v) = false := h t (by simp)
    simp only [applyThresholds, h1, Bool.false_and, Bool.false_eq_true, if_false]
    exact ih acc (fun t' ht' => h t' (List.mem_cons_of_mem t ht'))

theorem applyThresholds_spec (v : ℚ) : ∀ (mv : List Int) (T : List XRat) (acc : Int),
    sortedX T = true → mv.length + 1 = T.length →
    XRat.leb (T.headD XRat.posInf) (XRat.fin v) = true →
    XRat.ltb (XRat.fin v) (T.getLastD XRat.negInf) = true →
    ∃ k, k < mv.length ∧
      XRat.leb (T.getD k XRat.posInf) (XRat.fin v) = true ∧
      XRat.ltb (XRat.fin v) (T.getD (k + 1) XRat.negInf) = true ∧
      applyThresholds v (zip3 mv T.dropLast T.tail) acc = mv.getD k 0 ∧
      ∀ j, j < mv.length →
        XRat.leb (T.getD j XRat.posInf) (XRat.fin v) = true →
        XRat.ltb (XRat.fin v) (T.getD (j + 1) XRat.negInf) = true → j = k := by
  intro mv
  induction mv with
  | nil =>
    intro T acc hsort hlen hhead hlast
    exfalso
    cases T with
    | nil => simp at hlen
    | cons t T' =>
      cases T' with
      | nil =>
        simp only [List.headD_cons] at hhead
        simp only [List.getLastD_cons, List.getLastD_nil] at hlast
        exact XRat.not_leb_and_ltb t (XRat.fin v) ⟨hhead, hlast⟩
      | cons t1 T'' => simp at hlen
  | cons m mv' ih =>
    intro T acc hsort hlen hhead hlast
    cases T with
    | nil => simp at hlen
    | cons t0 T' =>
      cases T' with
      | nil => simp at hlen
      | cons t1 T'' =>
        have hlen' : mv'.length + 1 = (t1 :: T'').length := by
          simpa using hlen
        have hdrop : (t0 :: t1 :: T'').dropLast = t0 :: (t1 :: T'').dropLast := by
          simp [List.dropLast]
        have hzip : zip3 (m :: mv') (t0 :: t1 :: T'').dropLast (t0 :: t1 :: T'').tail
            = (m, t0, t1) :: zip3 mv' (t1 :: T'').dropLast (t1 :: T'').tail := by
          rw [hdrop]
          cases T'' with
          | nil => rfl
          | cons t2 T3 => rfl
        simp only [List.headD_cons] at hhead
        by_cases hc : XRat.ltb (XRat.fin v) t1 = true
        · -- the maximum lies in the very first interval
          refine ⟨0, by simp, ?_, ?_, ?_, ?_⟩
          · simpa using hhead
          · simpa using hc
          · rw [hzip]
            simp only [applyThresholds, hhead, hc, Bool.and_self, if_true]
            apply applyThresholds_no_match
            intro t ht
            have hmem : t.2.1 ∈ (t1 :: T'').dropLast :=
              zip3_mem_middle mv' (t1 :: T'').dropLast (t1 :: T'').tail t ht
            have hmem' : t.2.1 ∈ t1 :: T'' := List.dropLast_subset _ hmem
            have h1 : XRat.leb t1 t.2.1 = true :=
              sortedX_head_le T'' t1 (sortedX_tail t0 (t1 :: T'') hsort) t.2.1 hmem'
            by_contra hne
            have h2 : XRat.leb t.2.1 (XRat.fin v) = true := by
              cases h3 : XRat.leb t.2.1 (XRat.fin v) with
              | false => exact absurd h3 hne
              | true => rfl
            exact XRat.not_leb_and_ltb t1 (XRat.fin v)
              ⟨XRat.leb_trans t1 t.2.1 (XRat.fin v) h1 h2, hc⟩
          · intro j hj hjle hjlt
            cases j with
            | zero => rfl
            | succ j' =>
              exfalso
              have hj' : j' < mv'.length := by simpa using hj
              have hj'' : j' < (t1 :: T'').length := by omega
              have hmem : (t1 :: T'').getD j' XRat.posInf ∈ t1 :: T'' :=
                getD_mem_of_lt _ j' _ hj''
              have h1 : XRat.leb t1 ((t1 :: T'').getD j' XRat.posInf) = true :=
                sortedX_head_le T'' t1 (sortedX_tail t0 (t1 :: T'') hsort) _ hmem
              have h2 : XRat.leb ((t0 :: t1 :: T'').getD (j' + 1) XRat.posInf)
                  (XRat.fin v) = true := hjle
              rw [List.getD_cons_succ] at h2
              exact XRat.not_leb_and_ltb t1 (XRat.fin v)
                ⟨XRat.leb_trans t1 _ (XRat.fin v) h1 h2, hc⟩
        · -- the maximum lies beyond `t1`: recurse into the tail
          have ht1v : XRat.leb t1 (XRat.fin v) = true := by
            simp only [XRat.ltb, Bool.not_eq_true'] at hc
            simpa using hc
          have hlast' : XRat.ltb (XRat.fin v) ((t1 :: T'').getLastD XRat.negInf) = true := by
            rw [getLastD_cons_of_ne_nil t0 XRat.negInf (t1 :: T'') (by simp)] at hlast
            exact hlast
          obtain ⟨k', hk'lt, hk'le, hk'lt2, hk'fold, hk'uniq⟩ :=
            ih (t1 :: T'') acc (sortedX_tail t0 (t1 :: T'') hsort) hlen'
              (by simpa using ht1v) hlast'
          refine ⟨k' + 1, by simpa using hk'lt, ?_, ?_, ?_, ?_⟩
          · simpa using hk'le
          · simpa using hk'lt2
          · rw [hzip]
            simp only [applyThresholds]
            have hcond : XRat.ltb (XRat.fin v) t1 = false := by
              cases h3 : XRat.ltb (XRat.fin v) t1 with
              | false => rfl
              | true => exact absurd h3 hc
            simp only [hcond, Bool.and_false, Bool.false_eq_true, if_false]
            simpa using hk'fold
          · intro j hj hjle hjlt
            cases j with
            | zero =>
              exfalso
              simp only [zero_add, List.getD_cons_succ, List.getD_cons_zero] at hjlt
              exact hc hjlt
            | succ j' =>
              have hj' : j' < mv'.length := by simpa using hj
              have := hk'uniq j' hj' (by simpa using hjle) (by simpa using hjlt)
              omega

/-! ### Structure of `call2d` without force matching -/

theorem call2d_eq_nonforce (m : BoxMatcher) (hf : m.force_match_for_each_col = false)
    (sim : List (List ℚ)) (nc : Nat) (hnc : 1 ≤ nc)
    (hrect : ∀ r ∈ sim, r.length = nc) :
    m.call2d sim = ((sim.map paddedRow).map argmaxIdx,
      ((sim.map paddedRow).map listMax).map (setValuesFold m.match_values m.thresholds)) := by
  cases sim with
  | nil => simp [BoxMatcher.call2d, BoxMatcher.matchEmpty]
  | cons r rest =>
    have hr : r.length = nc := hrect r (by simp)
    unfold BoxMatcher.call2d
    have hpos : (0 : Nat) < ((r :: rest).headD []).length := by
      simp only [List.headD_cons]
      omega
    rw [if_pos hpos]
    unfold BoxMatcher.matchNonEmpty
    rw [hf]
    simp

/-- C1: for a similarity matrix with `num_cols >= 1` and entries in `[0, 1]`
(and the default `force_match_for_each_col=False`), `BoxMatcher.call` returns
one matched column per row; each row's matched column attains the maximum of
that row, and it is strictly below `num_cols` — the appended `-1` padding
column is never selected. -/
theorem boxMatcher_matched_columns_argmax
    (m : BoxMatcher) (sim : List (List ℚ)) (nc : Nat)
    (hforce : m.force_match_for_each_col = false)
    (hnc : 1 ≤ nc) (hrect : ∀ r ∈ sim, r.length = nc)
    (hvals : ∀ r ∈ sim, ∀ x ∈ r, 0 ≤ x ∧ x ≤ 1) :
    (m.call2d sim).1.length = sim.length ∧
    ∀ i, i < sim.length →
      (m.call2d sim).1.getD i 0 < nc ∧
      (sim.getD i []).getD ((m.call2d sim).1.getD i 0) 0 = listMax (sim.getD i []) := by
  rw [call2d_eq_nonforce m hforce sim nc hnc hrect]
  constructor
  · simp
  · intro i hi
    have hrow : sim.getD i [] ∈ sim := getD_mem_of_lt sim i [] hi
    have hlen : (sim.getD i []).length = nc := hrect _ hrow
    have hne : sim.getD i [] ≠ [] := by
      intro hnil
      rw [hnil] at hlen
      simp at hlen
      omega
    have h0 : ∀ x ∈ sim.getD i [], 0 ≤ x := fun x hx => (hvals _ hrow x hx).1
    have hcol : ((sim.map paddedRow).map argmaxIdx).getD i 0
        = argmaxIdx (paddedRow (sim.getD i [])) := by
      rw [getD_map_of_lt argmaxIdx (sim.map paddedRow) i 0 (paddedRow []) (by simpa using hi),
        getD_map_of_lt paddedRow sim i (paddedRow []) [] hi]
    simp only [hcol, argmaxIdx_append_neg _ hne h0]
    refine ⟨?_, getD_argmaxIdx 0 (sim.getD i []) hne⟩
    have := argmaxIdx_lt_length (sim.getD i []) hne
    omega

/-- Witness for C1 at the matrix `[[1, 0]]` with `num_cols = 2`. -/
theorem boxMatcher_matched_columns_argmax_witness :
    ((BoxMatcher.mk [XRat.negInf, XRat.posInf] [0] false).call2d [[1, 0]]).1.getD 0 0 < 2 ∧
    ([[(1 : ℚ), 0]].getD 0 []).getD
      (((BoxMatcher.mk [XRat.negInf, XRat.posInf] [0] false).call2d [[1, 0]]).1.getD 0 0) 0
      = listMax ([[(1 : ℚ), 0]].getD 0 []) :=
  (boxMatcher_matched_columns_argmax (BoxMatcher.mk [XRat.negInf, XRat.posInf] [0] false)
    [[1, 0]] 2 rfl (by decide) (by decide) (by decide)).2 0 (by decide)

/-- C2: with a validly constructed matcher (default force matching off), the
matched value of every row is `match_values[k]` for the unique `k` such that
the row's maximum similarity lies in `[thresholds[k], thresholds[k+1])`,
where the stored thresholds are the constructor's thresholds with `-inf`
prepended and `+inf` appended. -/
theorem boxMatcher_matched_values_thresholds
    (ts : List ℚ) (mv : List Int) (m : BoxMatcher)
    (hinit : BoxMatcher.init ts mv false = Except.ok m)
    (sim : List (List ℚ)) (nc : Nat) (hnc : 1 ≤ nc)
    (hrect : ∀ r ∈ sim, r.length = nc)
    (hvals : ∀ r ∈ sim, ∀ x ∈ r, 0 ≤ x ∧ x ≤ 1) :
    m.thresholds = XRat.negInf :: (ts.map XRat.fin ++ [XRat.posInf]) ∧
    ∀ i, i < sim.length →
      ∃ k, k < mv.length ∧
        XRat.leb (m.thresholds.getD k XRat.posInf)
          (XRat.fin (listMax (sim.getD i []))) = true ∧
        XRat.ltb (XRat.fin (listMax (sim.getD i [])))
          (m.thresholds.getD (k + 1) XRat.negInf) = true ∧
        (m.call2d sim).2.getD i 0 = mv.getD k 0 ∧
        ∀ j, j < mv.length →
          XRat.leb (m.thresholds.getD j XRat.posInf)
            (XRat.fin (listMax (sim.getD i []))) = true →
          XRat.ltb (XRat.fin (listMax (sim.getD i [])))
            (m.thresholds.getD (j + 1) XRat.negInf) = true →
          j = k := by
  rw [BoxMatcher.init] at hinit
  split at hinit
  · exact absurd hinit (by simp)
  · split at hinit
    · exact absurd hinit (by simp)
    · rename_i hsort hlen
      have hs : isSortedQ ts = true := by
        by_contra hc
        exact hsort (by simpa using hc)
      have hl : mv.length = ts.length + 1 := by
        by_contra hc
        exact hlen hc
      injection hinit with hm
      subst hm
      refine ⟨rfl, ?_⟩
      intro i hi
      have hrow : sim.getD i [] ∈ sim := getD_mem_of_lt sim i [] hi
      have hlenr : (sim.getD i []).length = nc := hrect _ hrow
      have hne : sim.getD i [] ≠ [] := by
        intro hnil
        rw [hnil] at hlenr
        simp at hlenr
        omega
      have h0 : ∀ x ∈ sim.getD i [], 0 ≤ x := fun x hx => (hvals _ hrow x hx).1
      have hforce : (BoxMatcher.mk
          (XRat.negInf :: (ts.map XRat.fin ++ [XRat.posInf])) mv
          false).force_match_for_each_col = false := rfl
      rw [call2d_eq_nonforce _ hforce sim nc hnc hrect]
      have hv : (((sim.map paddedRow).map listMax).map
          (setValuesFold mv (XRat.negInf :: (ts.map XRat.fin ++ [XRat.posInf])))).getD i 0
          = setValuesFold mv (XRat.negInf :: (ts.map XRat.fin ++ [XRat.posInf]))
              (listMax (sim.getD i [])) := by
        rw [getD_map_of_lt _ ((sim.map paddedRow).map listMax) i 0 0 (by simpa using hi),
          getD_map_of_lt listMax (sim.map paddedRow) i 0 (paddedRow []) (by simpa using hi),
          getD_map_of_lt paddedRow sim i (paddedRow []) [] hi,
          listMax_append_neg _ hne h0]
      have hsx : sortedX (XRat.negInf :: (ts.map XRat.fin ++ [XRat.posInf])) = true :=
        sortedX_stored ts hs
      have hlenx : mv.length + 1
          = (XRat.negInf :: (ts.map XRat.fin ++ [XRat.posInf])).length := by
        simp [hl]
      have hhead : XRat.leb
          ((XRat.negInf :: (ts.map XRat.fin ++ [XRat.posInf])).headD XRat.posInf)
          (XRat.fin (listMax (sim.getD i []))) = true := by
        simp [XRat.leb_negInf]
      have hlast : XRat.ltb (XRat.fin (listMax (sim.getD i [])))
          ((XRat.negInf :: (ts.map XRat.fin ++ [XRat.posInf])).getLastD XRat.negInf)
          = true := by
        have : (XRat.negInf :: (ts.map XRat.fin ++ [XRat.posInf]))
            = (XRat.negInf :: ts.map XRat.fin) ++ [XRat.posInf] := by simp
        rw [this, List.getLastD_concat]
        rfl
      obtain ⟨k, hk1, hk2, hk3, hk4, hk5⟩ :=
        applyThresholds_spec (listMax (sim.getD i [])) mv
          (XRat.negInf :: (ts.map XRat.fin ++ [XRat.posInf])) 0 hsx hlenx hhead hlast
      exact ⟨k, hk1, hk2, hk3, by rw [hv]; exact hk4, hk5⟩

/-- Witness for C2 at thresholds `[0]`, match values `[5, 7]`, matrix `[[1]]`. -/
theorem boxMatcher_matched_values_thresholds_witness :
    ∃ k, k < ([5, 7] : List Int).length ∧
      XRat.leb ((BoxMatcher.mk [XRat.negInf, XRat.fin 0, XRat.posInf] [5, 7]
          false).thresholds.getD k XRat.posInf)
        (XRat.fin (listMax ([[(1 : ℚ)]].getD 0 []))) = true ∧
      XRat.ltb (XRat.fin (listMax ([[(1 : ℚ)]].getD 0 [])))
        ((BoxMatcher.mk [XRat.negInf, XRat.fin 0, XRat.posInf] [5, 7]
          false).thresholds.getD (k + 1) XRat.negInf) = true ∧
      ((BoxMatcher.mk [XRat.negInf, XRat.fin 0, XRat.posInf] [5, 7]
          false).call2d [[1]]).2.getD 0 0 = ([5, 7] : List Int).getD k 0 ∧
      ∀ j, j < ([5, 7] : List Int).length →
        XRat.leb ((BoxMatcher.mk [XRat.negInf, XRat.fin 0, XRat.posInf] [5, 7]
            false).thresholds.getD j XRat.posInf)
          (XRat.fin (listMax ([[(1 : ℚ)]].getD 0 []))) = true →
        XRat.ltb (XRat.fin (listMax ([[(1 : ℚ)]].getD 0 [])))
          ((BoxMatcher.mk [XRat.negInf, XRat.fin 0, XRat.posInf] [5, 7]
            false).thresholds.getD (j + 1) XRat.negInf) = true →
        j = k :=
  (boxMatcher_matched_values_thresholds [0] [5, 7]
    (BoxMatcher.mk [XRat.negInf, XRat.fin 0, XRat.posInf] [5, 7] false) rfl
    [[1]] 1 (by decide) (by decide) (by decide)).2 0 (by decide)

/-- C3: evaluation of the failing input. With
`force_match_for_each_col=True`, thresholds `[1]`, match values `[0, 1]` and
similarity matrix `[[1, 1]]` (entries in `[0, 1]`, `num_cols = 2`), the code
returns matched columns `[0]`: no row is matched to column `1 < num_cols`,
although the layer's docstring guarantees every column a positive match. -/
theorem boxMatcher_force_match_counterexample_eval :
    BoxMatcher.init [1] [0, 1] true = Except.ok forceMatcher ∧
    forceMatcher.call2d [[1, 1]] = ([0], [1]) ∧
    (1 : Nat) < 2 ∧
    ∀ c ∈ (forceMatcher.call2d [[1, 1]]).1, c ≠ 1 :=
  ⟨rfl, by decide, by decide, by decide⟩

/-- C8: each batch slice of `BoxMatcher.call` equals `call2d` of that slice,
and the 2-D entry point (expand-dims, batched call, squeeze) equals the
direct 2-D computation. -/
theorem boxMatcher_batch_independence (m : BoxMatcher) (sims : List (List (List ℚ))) :
    (∀ b, b < sims.length → (m.call sims).getD b ([], []) = m.call2d (sims.getD b [])) ∧
    ∀ sim : List (List ℚ), m.callMatrix sim = m.call2d sim := by
  constructor
  · intro b hb
    unfold BoxMatcher.call
    exact getD_map_of_lt m.call2d sims b ([], []) [] hb
  · intro sim
    unfold BoxMatcher.callMatrix BoxMatcher.call
    simp

/-- Witness for C8 at a singleton batch. -/
theorem boxMatcher_batch_independence_witness :
    ((BoxMatcher.mk [] [] false).call [[[1]]]).getD 0 ([], [])
      = (BoxMatcher.mk [] [] false).call2d ([[[(1 : ℚ)]]].getD 0 []) :=
  (boxMatcher_batch_independence (BoxMatcher.mk [] [] false) [[[1]]]).1 0 (by decide)

theorem isSortedQ_iff_chain : ∀ ts : List ℚ,
    isSortedQ ts = true ↔ List.Chain' (fun a b => a ≤ b) ts := by
  intro ts
  induction ts with
  | nil => simp [isSortedQ]
  | cons a t ih =>
    cases t with
    | nil => simp [isSortedQ]
    | cons b s =>
      simp only [isSortedQ, Bool.and_eq_true, decide_eq_true_eq, List.chain'_cons]
      rw [ih]

/-- C9: `BoxMatcher.__init__` succeeds iff `thresholds` is sorted ascending
and `len(match_values) = len(thresholds) + 1`; the sortedness check is
non-decreasing order (`List.Chain'`). -/
theorem boxMatcher_init_validation (ts : List ℚ) (mv : List Int) (f : Bool) :
    (exceptIsOk (BoxMatcher.init ts mv f) = true ↔
      (isSortedQ ts = true ∧ mv.length = ts.length + 1)) ∧
    (isSortedQ ts = true ↔ List.Chain' (fun a b => a ≤ b) ts) := by
  constructor
  · unfold BoxMatcher.init
    split
    · rename_i h
      simp only [exceptIsOk]
      constructor
      · intro hfalse; exact absurd hfalse (by simp)
      · intro ⟨hs, _⟩; exact absurd (by simpa using hs) h
    · split
      · rename_i h hlen
        simp only [exceptIsOk]
        constructor
        · intro hfalse; exact absurd hfalse (by simp)
        · intro ⟨_, hl⟩; exact absurd hl hlen
      · rename_i h hlen
        simp only [exceptIsOk, true_iff]
        refine ⟨by simpa using h, by simpa using hlen⟩
  · exact isSortedQ_iff_chain ts

/-- C10: on a similarity matrix with zero columns, `BoxMatcher.call` returns
all-zero matched columns and all `-1` matched values of shape `[num_rows]`,
for any configured match values; the same holds through the 2-D entry point. -/
theorem boxMatcher_empty_columns (m : BoxMatcher) (sim : List (List ℚ))
    (h : ∀ r ∈ sim, r.length = 0) :
    m.call2d sim = (List.replicate sim.length 0, List.replicate sim.length (-1)) ∧
    m.callMatrix sim = (List.replicate sim.length 0, List.replicate sim.length (-1)) := by
  have h2 : m.call2d sim
      = (List.replicate sim.length 0, List.replicate sim.length (-1)) := by
    unfold BoxMatcher.call2d
    cases sim with
    | nil => simp [BoxMatcher.matchEmpty]
    | cons r rest =>
      have hr : r.length = 0 := h r (by simp)
      simp [hr, BoxMatcher.matchEmpty]
  refine ⟨h2, ?_⟩
  unfold BoxMatcher.callMatrix BoxMatcher.call
  simpa using h2

/-- Witness for C10 at a `2 x 0` matrix. -/
theorem boxMatcher_empty_columns_witness :
    (BoxMatcher.mk [] [] false).call2d [[], []]
      = (List.replicate 2 0, List.replicate 2 (-1)) :=
  (boxMatcher_empty_columns (BoxMatcher.mk [] [] false) [[], []] (by decide)).1

/-! ### `padTo` lemmas -/

theorem padTo_length {α : Type} (len : Nat) (side : PaddingSide) (pad : α) (xs : List α) :
    (padTo len side pad xs).length = len := by
  unfold padTo
  split
  · rename_i h
    simp only [List.length_take]
    omega
  · rename_i h
    cases side <;> simp <;> omega

theorem padTo_right_structure {α : Type} (len : Nat) (pad : α) (xs : List α) :
    ∃ n, padTo len PaddingSide.right pad xs = xs.take len ++ List.replicate n pad := by
  unfold padTo
  split
  · exact ⟨0, by simp⟩
  · rename_i h
    refine ⟨len - xs.length, ?_⟩
    rw [List.take_of_length_le (by omega)]

theorem padTo_left_structure {α : Type} (len : Nat) (pad : α) (xs : List α) :
    ∃ n, padTo len PaddingSide.left pad xs = List.replicate n pad ++ xs.take len := by
  unfold padTo
  split
  · exact ⟨0, by simp⟩
  · rename_i h
    refine ⟨len - xs.length, ?_⟩
    rw [List.take_of_length_le (by omega)]

theorem padTo_right_of_le {α : Type} (len : Nat) (pad : α) (xs : List α)
    (h : xs.length ≤ len) :
    padTo len PaddingSide.right pad xs = xs ++ List.replicate (len - xs.length) pad := by
  unfold padTo
  split
  · rename_i h2
    have : xs.length = len := by omega
    rw [List.take_of_length_le (by omega)]
    simp [this]
  · rfl

/-- C4: every output of `MultiSegmentPacker.call` has exactly
`sequence_length` elements per example — longer packed sequences are
truncated, shorter ones padded with `pad_value` on the configured side. -/
theorem multiSegmentPacker_output_length {α : Type} (p : MultiSegmentPacker α)
    (segs : List (List α)) :
    (p.call segs).1.length = p.sequence_length ∧
    (p.call segs).2.length = p.sequence_length ∧
    (p.padding_side = PaddingSide.right → ∃ n, (p.call segs).1
        = (combineTokens p (trimSegments p segs)).take p.sequence_length
          ++ List.replicate n p.pad_value) ∧
    (p.padding_side = PaddingSide.left → ∃ n, (p.call segs).1
        = List.replicate n p.pad_value
          ++ (combineTokens p (trimSegments p segs)).take p.sequence_length) := by
  refine ⟨padTo_length _ _ _ _, padTo_length _ _ _ _, ?_, ?_⟩
  · intro hside
    unfold MultiSegmentPacker.call
    rw [hside]
    exact padTo_right_structure _ _ _
  · intro hside
    unfold MultiSegmentPacker.call
    rw [hside]
    exact padTo_left_structure _ _ _

/-- Witness for C4 at a concrete right-padded packer. -/
theorem multiSegmentPacker_output_length_witness :
    (wfExample.call [[1], [4]]).1.length = 7 ∧
    ∃ n, (wfExample.call [[1], [4]]).1
      = (combineTokens wfExample (trimSegments wfExample [[1], [4]])).take 7
        ++ List.replicate n wfExample.pad_value :=
  ⟨(multiSegmentPacker_output_length wfExample [[1], [4]]).1,
    (multiSegmentPacker_output_length wfExample [[1], [4]]).2.2.1 rfl⟩

/-! ### Truncation counts -/

theorem waterfallCounts_two (l1 l2 b : Nat) :
    waterfallCounts [l1, l2] b = [min l1 b, min l2 (b - min l1 b)] := by
  simp [waterfallCounts, waterfallStep]

theorem rrPass_two (l1 l2 k1 k2 b : Nat) :
    rrPass [l1, l2] [k1, k2] b
      = ([(rr2Pass l1 l2 k1 k2 b).1, (rr2Pass l1 l2 k1 k2 b).2.1],
          (rr2Pass l1 l2 k1 k2 b).2.2) := by
  simp only [rrPass, rr2Pass]
  split_ifs <;> simp_all

theorem rrAux_two (fuel : Nat) : ∀ l1 l2 k1 k2 b : Nat,
    rrAux fuel [l1, l2] [k1, k2] b
      = [(rr2 fuel l1 l2 k1 k2 b).1, (rr2 fuel l1 l2 k1 k2 b).2] := by
  induction fuel with
  | zero => intro l1 l2 k1 k2 b; simp [rrAux, rr2]
  | succ fuel ih =>
    intro l1 l2 k1 k2 b
    have hcap : hasCapacity [l1, l2] [k1, k2] = true ↔ (k1 < l1 ∨ k2 < l2) := by
      simp [hasCapacity]
    simp only [rrAux, rr2]
    by_cases hc : 0 < b ∧ (k1 < l1 ∨ k2 < l2)
    · have hcL : 0 < b ∧ hasCapacity [l1, l2] [k1, k2] = true := ⟨hc.1, hcap.mpr hc.2⟩
      rw [if_pos hcL, if_pos hc, rrPass_two]
      exact ih l1 l2 _ _ _
    · have hcL : ¬ (0 < b ∧ hasCapacity [l1, l2] [k1, k2] = true) := by
        intro h
        exact hc ⟨h.1, hcap.mp h.2⟩
      rw [if_neg hcL, if_neg hc]

theorem rr2Pass_shift (l1 l2 k1 k2 b : Nat) (h1 : k1 ≤ l1) (h2 : k2 ≤ l2) :
    rr2Pass l1 l2 k1 k2 b
      = (k1 + (rr2Pass (l1 - k1) (l2 - k2) 0 0 b).1,
         k2 + (rr2Pass (l1 - k1) (l2 - k2) 0 0 b).2.1,
         (rr2Pass (l1 - k1) (l2 - k2) 0 0 b).2.2) := by
  simp only [rr2Pass, Prod.mk.injEq]
  split_ifs <;> refine ⟨by omega, by omega, by omega⟩

theorem rr2_shift (fuel : Nat) : ∀ l1 l2 k1 k2 b : Nat, k1 ≤ l1 → k2 ≤ l2 →
    rr2 fuel l1 l2 k1 k2 b
      = (k1 + (rr2 fuel (l1 - k1) (l2 - k2) 0 0 b).1,
         k2 + (rr2 fuel (l1 - k1) (l2 - k2) 0 0 b).2) := by
  induction fuel with
  | zero => intro l1 l2 k1 k2 b _ _; simp [rr2]
  | succ fuel ih =>
    intro l1 l2 k1 k2 b h1 h2
    by_cases hc : 0 < b ∧ (k1 < l1 ∨ k2 < l2)
    · have hc' : 0 < b ∧ (0 < l1 - k1 ∨ 0 < l2 - k2) := by omega
      rcases hX : rr2Pass (l1 - k1) (l2 - k2) 0 0 b with ⟨g1, g2, b2⟩
      have hg : g1 ≤ l1 - k1 ∧ g2 ≤ l2 - k2 := by
        simp only [rr2Pass, Prod.mk.injEq] at hX
        split_ifs at hX <;> omega
      have e1 : rr2 (fuel + 1) l1 l2 k1 k2 b
          = rr2 fuel l1 l2 (k1 + g1) (k2 + g2) b2 := by
        simp only [rr2]
        rw [if_pos hc, rr2Pass_shift l1 l2 k1 k2 b h1 h2, hX]
      have e2 : rr2 (fuel + 1) (l1 - k1) (l2 - k2) 0 0 b
          = rr2 fuel (l1 - k1) (l2 - k2) g1 g2 b2 := by
        simp only [rr2]
        rw [if_pos hc', hX]
      rw [e1, e2, ih l1 l2 (k1 + g1) (k2 + g2) b2 (by omega) (by omega),
        ih (l1 - k1) (l2 - k2) g1 g2 b2 hg.1 hg.2]
      have ea : l1 - (k1 + g1) = l1 - k1 - g1 := by omega
      have eb : l2 - (k2 + g2) = l2 - k2 - g2 := by omega
      rw [ea, eb]
      simp only [Prod.mk.injEq]
      constructor <;> omega
    · have hc' : ¬ (0 < b ∧ (0 < l1 - k1 ∨ 0 < l2 - k2)) := by omega
      simp only [rr2]
      rw [if_neg hc, if_neg hc']
      simp

theorem rr2_closed : ∀ fuel l1 l2 b : Nat, b ≤ fuel →
    rr2 fuel l1 l2 0 0 b = (rrClosed1 l1 l2 b, rrClosed2 l1 l2 b) := by
  intro fuel
  induction fuel with
  | zero =>
    intro l1 l2 b hb
    have hb0 : b = 0 := by omega
    subst hb0
    simp only [rr2, rrClosed1, rrClosed2, Prod.mk.injEq]
    constructor <;> omega
  | succ fuel ih =>
    intro l1 l2 b hb
    by_cases hc : 0 < b ∧ (0 < l1 ∨ 0 < l2)
    · by_cases hl1 : 0 < l1
      · by_cases hb1 : b = 1
        · -- one grant to the first segment exhausts the budget
          subst hb1
          have hX : rr2Pass l1 l2 0 0 1 = (1, 0, 0) := by
            simp only [rr2Pass, Prod.mk.injEq]
            split_ifs <;> omega
          have e1 : rr2 (fuel + 1) l1 l2 0 0 1 = rr2 fuel l1 l2 1 0 0 := by
            simp only [rr2]
            rw [if_pos hc, hX]
          rw [e1, rr2_shift fuel l1 l2 1 0 0 (by omega) (by omega),
            ih (l1 - 1) (l2 - 0) 0 (by omega)]
          simp only [rrClosed1, rrClosed2, Prod.mk.injEq]
          constructor <;> omega
        · by_cases hl2 : 0 < l2
          · -- both segments take one token in the pass
            have hX : rr2Pass l1 l2 0 0 b = (1, 1, b - 2) := by
              simp only [rr2Pass, Prod.mk.injEq]
              split_ifs <;> omega
            have e1 : rr2 (fuel + 1) l1 l2 0 0 b = rr2 fuel l1 l2 1 1 (b - 2) := by
              simp only [rr2]
              rw [if_pos hc, hX]
            rw [e1, rr2_shift fuel l1 l2 1 1 (b - 2) (by omega) (by omega),
              ih (l1 - 1) (l2 - 1) (b - 2) (by omega)]
            simp only [rrClosed1, rrClosed2, Prod.mk.injEq]
            constructor <;> omega
          · -- only the first segment has capacity
            have hX : rr2Pass l1 l2 0 0 b = (1, 0, b - 1) := by
              simp only [rr2Pass, Prod.mk.injEq]
              split_ifs <;> omega
            have e1 : rr2 (fuel + 1) l1 l2 0 0 b = rr2 fuel l1 l2 1 0 (b - 1) := by
              simp only [rr2]
              rw [if_pos hc, hX]
            rw [e1, rr2_shift fuel l1 l2 1 0 (b - 1) (by omega) (by omega),
              ih (l1 - 1) (l2 - 0) (b - 1) (by omega)]
            simp only [rrClosed1, rrClosed2, Prod.mk.injEq]
            constructor <;> omega
      · -- only the second segment has capacity
        have hX : rr2Pass l1 l2 0 0 b = (0, 1, b - 1) := by
          simp only [rr2Pass, Prod.mk.injEq]
          split_ifs <;> omega
        have e1 : rr2 (fuel + 1) l1 l2 0 0 b = rr2 fuel l1 l2 0 1 (b - 1) := by
          simp only [rr2]
          rw [if_pos hc, hX]
        rw [e1, rr2_shift fuel l1 l2 0 1 (b - 1) (by omega) (by omega),
          ih (l1 - 0) (l2 - 1) (b - 1) (by omega)]
        simp only [rrClosed1, rrClosed2, Prod.mk.injEq]
        constructor <;> omega
    · simp only [rr2]
      rw [if_neg hc]
      simp only [rrClosed1, rrClosed2, Prod.mk.injEq]
      constructor <;> omega

theorem roundRobinCounts_two (l1 l2 b : Nat) :
    roundRobinCounts [l1, l2] b = [rrClosed1 l1 l2 b, rrClosed2 l1 l2 b] := by
  unfold roundRobinCounts
  have hmap : ([l1, l2].map fun _ => 0) = [0, 0] := rfl
  rw [hmap, rrAux_two, rr2_closed b l1 l2 b le_rfl]

/-- C5: when two segments exceed the budget, waterfall truncation spends the
budget in segment order (the second segment only keeps tokens once the first
is whole), while round-robin truncation hands out tokens one at a time,
splitting them evenly; concretely, `[a,b,c]`/`[x,y,z]` at `sequence_length 7`
keep `a,b,c,x` under waterfall and `a,b,x,y` under round-robin. -/
theorem multiSegmentPacker_truncate_modes (l1 l2 b : Nat) (hexceed : b < l1 + l2) :
    waterfallCounts [l1, l2] b = [min l1 b, min l2 (b - min l1 b)] ∧
    (0 < min l2 (b - min l1 b) → min l1 b = l1) ∧
    roundRobinCounts [l1, l2] b
      = [min l1 (max ((b + 1) / 2) (b - l2)), min l2 (max (b / 2) (b - l1))] ∧
    (wfExample.call [[1, 2, 3], [4, 5, 6]]).1 = [101, 1, 2, 3, 102, 4, 102] ∧
    (rrExample.call [[1, 2, 3], [4, 5, 6]]).1 = [101, 1, 2, 102, 4, 5, 102] := by
  refine ⟨waterfallCounts_two l1 l2 b, ?_, ?_, by decide, by decide⟩
  · intro h
    omega
  · rw [roundRobinCounts_two]
    rfl

/-- Witness for C5 at segment lengths `3, 3` and budget `4`. -/
theorem multiSegmentPacker_truncate_modes_witness :
    waterfallCounts [3, 3] 4 = [min 3 4, min 3 (4 - min 3 4)] ∧
    (rrExample.call [[1, 2, 3], [4, 5, 6]]).1 = [101, 1, 2, 102, 4, 5, 102] :=
  ⟨(multiSegmentPacker_truncate_modes 3 3 4 (by decide)).1,
    (multiSegmentPacker_truncate_modes 3 3 4 (by decide)).2.2.2.2⟩

/-! ### Structure of the packed output -/

theorem segmentCounts_two {α : Type} (p : MultiSegmentPacker α) (l1 l2 : Nat) :
    ∃ c1 c2, segmentCounts p [l1, l2] = [c1, c2] ∧
      c1 + c2 ≤ p.sequence_length - numSpecialTokens p 2 ∧ c1 ≤ l1 ∧ c2 ≤ l2 := by
  cases htr : p.truncate with
  | roundRobin =>
    refine ⟨rrClosed1 l1 l2 (p.sequence_length - numSpecialTokens p 2),
      rrClosed2 l1 l2 (p.sequence_length - numSpecialTokens p 2), ?_, ?_, ?_, ?_⟩
    · simp only [segmentCounts, htr, List.length_cons, List.length_nil]
      exact roundRobinCounts_two l1 l2 _
    · simp only [rrClosed1, rrClosed2]
      omega
    · simp only [rrClosed1]
      omega
    · simp only [rrClosed2]
      omega
  | waterfall =>
    refine ⟨min l1 (p.sequence_length - numSpecialTokens p 2),
      min l2 ((p.sequence_length - numSpecialTokens p 2)
        - min l1 (p.sequence_length - numSpecialTokens p 2)), ?_, ?_, ?_, ?_⟩
    · simp only [segmentCounts, htr, List.length_cons, List.length_nil]
      exact waterfallCounts_two l1 l2 _
    · omega
    · omega
    · omega

theorem combineTokens_two {α : Type} (p : MultiSegmentPacker α) (t1 t2 : List α) :
    combineTokens p [t1, t2]
      = p.start_value ++ t1 ++ p.sep_value ++ t2 ++ p.end_value := by
  have h1 : combineRest p [t1, t2] = t1 ++ p.sep_value ++ (t2 ++ p.end_value) := rfl
  unfold combineTokens
  rw [h1]
  simp [List.append_assoc]

theorem combineSegIds_two {α : Type} (p : MultiSegmentPacker α) (t1 t2 : List α) :
    combineSegIds p [t1, t2]
      = List.replicate (p.start_value.length + t1.length + p.sep_value.length) 0
        ++ List.replicate (t2.length + p.end_value.length) 1 := by
  have h1 : segIdsRest p 0 [t1, t2]
      = List.replicate (t1.length + p.sep_value.length) 0
        ++ List.replicate (t2.length + p.end_value.length) (0 + 1) := rfl
  unfold combineSegIds
  rw [h1]
  apply Eq.symm
  have e2 : p.start_value.length + t1.length + p.sep_value.length
      = p.start_value.length + (t1.length + p.sep_value.length) := by omega
  rw [e2, List.replicate_add, List.append_assoc]

/-- C6: for a packed pair of segments (right padding, special tokens fitting
into `sequence_length`), the token output is the start block, the first
segment's kept tokens, the separator block, the second segment's kept
tokens, the end block, then padding; the segment ids label the start block
and first segment (with its separator) `0`, the second segment (with its
end block) `1`, and every padded position `0`. -/
theorem multiSegmentPacker_structure {α : Type} (p : MultiSegmentPacker α)
    (s1 s2 : List α) (hside : p.padding_side = PaddingSide.right)
    (hfit : numSpecialTokens p 2 ≤ p.sequence_length) :
    ∃ t1 t2 npad,
      trimSegments p [s1, s2] = [t1, t2] ∧
      (p.call [s1, s2]).1
        = p.start_value ++ t1 ++ p.sep_value ++ t2 ++ p.end_value
          ++ List.replicate npad p.pad_value ∧
      (p.call [s1, s2]).2
        = List.replicate (p.start_value.length + t1.length + p.sep_value.length) 0
          ++ List.replicate (t2.length + p.end_value.length) 1
          ++ List.replicate npad 0 := by
  obtain ⟨c1, c2, hc, hsum, hc1, hc2⟩ := segmentCounts_two p s1.length s2.length
  have htrim : trimSegments p [s1, s2] = [s1.take c1, s2.take c2] := by
    unfold trimSegments
    rw [show ([s1, s2].map List.length) = [s1.length, s2.length] from rfl, hc]
    rfl
  have ht1 : (s1.take c1).length ≤ c1 := by
    simp [List.length_take]
  have ht2 : (s2.take c2).length ≤ c2 := by
    simp [List.length_take]
  have hlen : (combineTokens p [s1.take c1, s2.take c2]).length ≤ p.sequence_length := by
    rw [combineTokens_two]
    simp only [List.length_append]
    unfold numSpecialTokens at hfit hsum
    omega
  have hlenIds : (combineSegIds p [s1.take c1, s2.take c2]).length
      = (combineTokens p [s1.take c1, s2.take c2]).length := by
    rw [combineTokens_two, combineSegIds_two]
    simp only [List.length_append, List.length_replicate]
    omega
  refine ⟨s1.take c1, s2.take c2,
    p.sequence_length - (combineTokens p [s1.take c1, s2.take c2]).length, htrim, ?_, ?_⟩
  · simp only [MultiSegmentPacker.call]
    rw [htrim, hside, padTo_right_of_le _ _ _ hlen]
    rw [combineTokens_two]
  · simp only [MultiSegmentPacker.call]
    rw [htrim, hside, padTo_right_of_le _ _ _ (le_of_eq_of_le hlenIds hlen), hlenIds]
    rw [combineSegIds_two]

/-- Witness for C6 at the packer `rrExample` and segments `[1]`, `[4]`. -/
theorem multiSegmentPacker_structure_witness :
    ∃ t1 t2 npad,
      trimSegments rrExample [[1], [4]] = [t1, t2] ∧
      (rrExample.call [[1], [4]]).1
        = rrExample.start_value ++ t1 ++ rrExample.sep_value ++ t2
          ++ rrExample.end_value ++ List.replicate npad rrExample.pad_value ∧
      (rrExample.call [[1], [4]]).2
        = List.replicate
            (rrExample.start_value.length + t1.length + rrExample.sep_value.length) 0
          ++ List.replicate (t2.length + rrExample.end_value.length) 1
          ++ List.replicate npad 0 :=
  multiSegmentPacker_structure rrExample [1] [4] rfl (by decide)

/-! ### PaliGemma backbone assembly -/

theorem buildTransformerLayers_eq_map {V I : Type} (ops : PaliGemmaOps V I) (n : Nat) :
    buildTransformerLayers ops n = (List.range n).map ops.decoder_block := by
  unfold buildTransformerLayers
  have h : ∀ (l : List Nat) (acc : List (List V → List Int → List Int → List V)),
      l.foldl (fun a i => a ++ [ops.decoder_block i]) acc
        = acc ++ l.map ops.decoder_block := by
    intro l
    induction l with
    | nil => intro acc; simp
    | cons x t ih => intro acc; simp [ih]
  simpa using h (List.range n) []

/-- C7: the backbone built by `PaliGemmaBackbone.__init__` has exactly
`num_layers` decoder blocks, and its forward pass applies the ViT encoder to
the image, scales the token embeddings by `sqrt(hidden_dim)` (here `s` with
`s * s = hidden_dim`), concatenates image embeddings before text embeddings,
folds the decoder blocks over the sequence in construction order, and
returns the final RMS normalization. -/
theorem paliGemmaBackbone_forward_structure {V I : Type}
    (ops : PaliGemmaOps V I) (num_layers hidden_dim : Nat) (s : ℚ)
    (hs : s * s = (hidden_dim : ℚ)) (hpos : 0 ≤ s)
    (images : I) (token_ids : List Int) (pm rm : List Int) :
    (buildTransformerLayers ops num_layers).length = num_layers ∧
    paliGemmaCall ops num_layers s images token_ids pm rm
      = ops.rms_norm ((List.range num_layers).foldl
          (fun x i => ops.decoder_block i x pm rm)
          (ops.vit_encoder images
            ++ token_ids.map fun t => ops.scalar_mul s (ops.token_embedding t))) := by
  constructor
  · rw [buildTransformerLayers_eq_map]
    simp
  · simp only [paliGemmaCall]
    rw [buildTransformerLayers_eq_map, List.foldl_map]

/-- Witness for C7 with `hidden_dim = 4`, `s = 2` over `Int` vectors. -/
theorem paliGemmaBackbone_forward_structure_witness :
    (buildTransformerLayers demoOps 3).length = 3 ∧
    paliGemmaCall demoOps 3 2 () [7] [1] [0]
      = demoOps.rms_norm ((List.range 3).foldl
          (fun x i => demoOps.decoder_block i x [1] [0])
          (demoOps.vit_encoder ()
            ++ [7].map fun t => demoOps.scalar_mul 2 (demoOps.token_embedding t))) :=
  paliGemmaBackbone_forward_structure demoOps 3 4 2 (by norm_num) (by norm_num)
    () [7] [1] [0]
